import Mathlib

/-!
Verification of the fiber-runtime core described by the repository's spec.
The runtime itself (fibers, Ref, SynchronizedRef, FiberRef, STM, Queue,
Deferred) is provided by the `effect` library and is not part of the
repository's own sources; the repository contains the programs that call it
(`src/unnamed/part_000`, `src/src/part4-whatsnext/snippets/...`).  Each
primitive is therefore modelled from the spec's description of its
semantics, and the concrete snippet programs are embedded from the source.
-/

namespace EffectWorkshop

/-! ## Ref: atomic reference (spec section 4.4, `src/unnamed/part_000`) -/

/-- Modelled from the spec: `Ref.update` applies its pure function to the
current value in a single atomic step, never suspending (spec section 4.4:
"all are a single atomic step"; section 5: operations on a single Ref are
linearizable, so all observers agree on one total order of updates).  The
`Ref` implementation lives in the `effect` library, outside `src/`.  A
concurrent execution of atomic updates is modelled as an arbitrary
interleaving, i.e. an arbitrary sequence in which the per-fiber atomic
read-modify-write steps hit the cell. -/
def runUpdates (fs : List (Nat → Nat)) (v : Nat) : Nat :=
  fs.foldl (fun s f => f s) v

/-- From `src/unnamed/part_000` lines 25-26: `incrementRef` updates the ref
with the pure function `(n) => n + 1`. -/
def incrementStep : Nat → Nat := fun n => n + 1

/-! ## SynchronizedRef (spec section 4.4, `src/unnamed/part_000` lines 96-140) -/

/-- Modelled from the spec: when several fibers are forked with unbounded
concurrency, each runs its instantaneous steps up to its first suspension
point before any timer fires, in fork order (spec section 5: a forked fiber
begins only when the forker suspends; timers are suspension points).  In the
snippet `three`, each logger fiber reads the committed value (its "before"
read) and then enters `updateEffect`, whose effectful function starts with a
one-second sleep, so the fiber suspends holding (or queueing on) the
SynchronizedRef lock without committing anything.  `startPhase` returns the
"before" reads and the FIFO lock-arrival queue; the committed value `v` is
threaded unchanged because no update can commit during this phase. -/
def startPhase (v : Nat) : List Nat → List Nat × List Nat
  | [] => ([], [])
  | a :: rest =>
    let p := startPhase v rest
    (v :: p.1, a :: p.2)

/-- Modelled from the spec: the SynchronizedRef serializes effectful updates
in FIFO arrival order (spec section 4.4: "acquires exclusive access (waiting
if another effectful update is in flight, FIFO order), evaluates f, commits
the result, releases").  `drainLock` runs the queued updates in arrival
order: each waiting fiber `a` commits `v + a` (the snippet's
`updateEffect((n) => sleep >> n + a)`), then performs its "after" read of
the freshly committed value.  It returns the list of `(fiber, after-read)`
pairs, the sequence of committed values, and the final value. -/
def drainLock (v : Nat) : List Nat → List (Nat × Nat) × List Nat × Nat
  | [] => ([], [], v)
  | a :: rest =>
    let v1 := v + a
    let p := drainLock v1 rest
    ((a, v1) :: p.1, v1 :: p.2.1, p.2.2)

/-- From `src/unnamed/part_000` lines 96-127 (`three`): a SynchronizedRef is
made with initial value 1 and `logged(1)`, `logged(2)`, `logged(3)` are run
with unbounded concurrency; `logged(id)` reads the ref, runs
`effectfulInc(id)` (a one-second sleep followed by `n + id` under the lock)
and reads again; finally the ref is read once more.  The result tuple is
(before-reads, (fiber, after-read) pairs, visible committed values over
time, final value). -/
def threeRun : List Nat × List (Nat × Nat) × List Nat × Nat :=
  let v0 := 1
  let p0 := startPhase v0 [1, 2, 3]
  let pd := drainLock v0 p0.2
  (p0.1, pd.1, v0 :: pd.2.1, pd.2.2)

/-! ## FiberRef (spec section 4.3; runtime snippet in
`src/src/part4-whatsnext/snippets`, segment lines 385-462) -/

/-- A FiberRef's propagation policy: a fork function seeding the child's
slot from the parent's, and a join function merging the child's final value
into the parent's slot (spec section 4.3). -/
structure RefPolicy (α : Type) where
  forkFn : α → α
  joinFn : α → α → α

/-- Modelled from the source: `FiberRef.make` without options uses
fork = identity copy, and join = take the child's final value.  The source's
own commentary (runtime snippet lines 443-453) states that on fork the new
fiber gets a copy of the current fiber's values and that on join the joined
fiber's values are merged into the current fiber's values, and explicitly
observes that after `Fiber.joinAll` "the main fiber does NOT have its
initial value as the final value" - i.e. the default merge keeps the
child's value, not the parent's.  (The spec's section 4.3 sentence claiming
the default discards the child's value contradicts the source here; the
source is the authority.) -/
def defaultPolicy (α : Type) : RefPolicy α :=
  { forkFn := fun a => a, joinFn := fun _ c => c }

/-- Seeding of the child's slot at fork time (spec section 4.3). -/
def forkSlot {α : Type} (pol : RefPolicy α) (parent : α) : α :=
  pol.forkFn parent

/-- `FiberRef.set` on the calling fiber's private slot (spec section 4.3). -/
def setSlot {α : Type} (_slot : α) (v : α) : α := v

/-- Merging of the child's final value into the parent's slot at join time
(spec section 4.3). -/
def joinSlot {α : Type} (pol : RefPolicy α) (parent child : α) : α :=
  pol.joinFn parent child

/-- From the runtime snippet lines 404-441: the main fiber makes a FiberRef
with initial value `null` (here `none`) and no custom policy, forks
`fiber1` which sets it to "fiber1", forks `fiber2` which sets it to
"fiber2", then `Fiber.joinAll [fiber1, fiber2]` and reads its own slot. -/
def runFiberRefSnippet : Option String :=
  let pol := defaultPolicy (Option String)
  let parent0 : Option String := none
  let child1 := setSlot (forkSlot pol parent0) (some "fiber1")
  let child2 := setSlot (forkSlot pol parent0) (some "fiber2")
  joinSlot pol (joinSlot pol parent0 child1) child2

/-! ## STM over TRef (spec section 4.6,
`src/src/part4-whatsnext/snippets/2-stm.ts`) -/

/-- The typed STM errors appearing in the snippet: `InsufficientFundsError`
(2-stm.ts lines 71-73) and the `Error("Boom!")` of `mutabilityBad`
(line 223). -/
inductive StmErr where
  | insufficientFunds
  | boom
deriving DecidableEq

/-- The committed store of transactional references: TRef id to balance. -/
def TStore : Type := Nat → Int

/-- Writing one TRef in a store. -/
def TStore.setRef (s : TStore) (r : Nat) (v : Int) : TStore :=
  fun q => if q = r then v else s q

/-- Deep embedding of the STM transaction language used by the snippet:
`TRef.get`, `TRef.set`, `STM.fail`, pure results and sequencing
(`STM.gen` / `STM.flatMap` / `STM.zipRight`). -/
inductive STM (ε : Type) : Type → Type 1 where
  | pureRes {α : Type} (a : α) : STM ε α
  | getRef (r : Nat) : STM ε Int
  | setRefTx (r : Nat) (v : Int) : STM ε Unit
  | failTx {α : Type} (e : ε) : STM ε α
  | bindTx {α β : Type} (m : STM ε α) (k : α → STM ε β) : STM ε β

/-- Modelled from the spec: the transaction body is evaluated against a
private, isolated view - the committed store plus the log of pending writes,
represented here as the working store threaded through evaluation (spec
section 4.6 step 1).  No effect reaches the committed store during
evaluation. -/
def STM.run {ε : Type} : {α : Type} → STM ε α → TStore → Except ε (α × TStore)
  | _, .pureRes a, s => .ok (a, s)
  | _, .getRef r, s => .ok (s r, s)
  | _, .setRefTx r v, s => .ok ((), s.setRef r v)
  | _, .failTx e, _ => .error e
  | _, .bindTx m k, s =>
    match m.run s with
    | .ok (a, s1) => (k a).run s1
    | .error e => .error e

/-- Modelled from the spec: `commit` applies all pending writes atomically
if evaluation succeeds (spec section 4.6 step 3); a transaction that
explicitly fails with a typed error is NOT retried - it is unwound, the
failure is returned and all provisional writes in its log are discarded
(step 5), leaving the committed store untouched.  In the single-threaded
interleaved model (spec section 5) each commit is one atomic step, and
concurrently issued commits execute in some serial order
(serializability, spec section 5). -/
def STM.commit {ε α : Type} (m : STM ε α) (s : TStore) : Except ε α × TStore :=
  match m.run s with
  | .ok (a, s1) => (.ok a, s1)
  | .error e => (.error e, s)

/-- `STM.all` on unit transactions: the members are composed into one
transaction evaluated against one consistent view, committing together or
not at all (spec section 4.6). -/
def STM.allU {ε : Type} : List (STM ε Unit) → STM ε Unit
  | [] => .pureRes ()
  | m :: ms => .bindTx m (fun _ => STM.allU ms)

/-- From 2-stm.ts lines 78-97: `transfer(from, to, amount)` reads both
balances, fails with `InsufficientFundsError` when the source balance is
below the amount, otherwise writes `fromBalance - amount` and
`toBalance + amount`. -/
def transfer (fromAcc toAcc : Nat) (amount : Int) : STM StmErr Unit :=
  .bindTx (.getRef fromAcc) fun fromBalance =>
  .bindTx (.getRef toAcc) fun toBalance =>
  .bindTx
    (if fromBalance < amount
      then (.failTx StmErr.insufficientFunds : STM StmErr Unit)
      else .pureRes ())
    fun _ =>
  .bindTx (.setRefTx fromAcc (fromBalance - amount)) fun _ =>
  .setRefTx toAcc (toBalance + amount)

/-- From 2-stm.ts lines 99-102 (`main`): accounts 1, 2, 3 are created with
initial balances 1000, 500, 200; account ids index their balance TRefs. -/
def mainStore : TStore :=
  fun r => if r = 1 then 1000 else if r = 2 then 500 else if r = 3 then 200 else 0

/-- Committing a list of transactions in a given serial order, each against
the store left by the previous commit. -/
def commitSeq (ts : List (STM StmErr Unit)) (s : TStore) : TStore :=
  ts.foldl (fun st m => (m.commit st).2) s

/-- From 2-stm.ts lines 107-108: `transfer(account1, account2, 200)`. -/
def transferA : STM StmErr Unit := transfer 1 2 200

/-- From 2-stm.ts lines 110-111: `transfer(account2, account1, 300)`. -/
def transferB : STM StmErr Unit := transfer 2 1 300

/-- From 2-stm.ts lines 127-131: `badTransaction` composes with `STM.all`
a transfer of 1000 from account 1 to 2, a transfer of 300 from account 3
to 1 (which fails: account 3 holds only 200), and a transfer of 400 from
account 1 to 3. -/
def badTransaction : STM StmErr Unit :=
  STM.allU [transfer 1 2 1000, transfer 3 1 300, transfer 1 3 400]

/-- The store at the point `badTransaction` is committed in `main`: after
the two concurrent transfers have both committed (balances 1100, 400, 200). -/
def storeAfterTransfers : TStore :=
  commitSeq [transferA, transferB] mainStore

/-! ## TRefs holding mutable objects (2-stm.ts lines 214-241,
`mutabilityBad`) -/

/-- From 2-stm.ts line 220: the update function does
`date.setMonth(date.getMonth() + 1)` in place.  Dates are modelled by their
absolute month count, so the mutation adds one. -/
def addMonth : Nat → Nat := fun m => m + 1

/-- The transaction language of `mutabilityBad`: a `TRef.update` whose
function mutates the held object in place (returning the same object), a
well-behaved immutable-style write for contrast, and `STM.fail`. -/
inductive MutTx where
  | done
  | updateMut (f : Nat → Nat) (k : MutTx)
  | setFresh (v : Nat) (k : MutTx)
  | failTx (e : StmErr)

/-- The shared state around a TRef holding a heap object: the heap of
objects by address, the next fresh address, and the committed address the
TRef points at. -/
structure MutSt where
  heap : Nat → Nat
  nextAddr : Nat
  addr : Nat

/-- Modelled from the spec and the source: the transaction log tracks the
pending value (here: the working address `w`) of the TRef, but an update
function that mutates its argument in place writes straight through to the
shared heap, outside the log (2-stm.ts lines 209-241: "if you have a
mutable reference, you basically lose all the guarantees of STM").
`updateMut f` mutates the object at the working address and keeps the same
address; `setFresh` allocates a fresh object, touching only the log. -/
def MutTx.run : MutTx → Nat → (Nat → Nat) → Nat → (Except StmErr Nat) × (Nat → Nat) × Nat
  | .done, w, heap, nxt => (.ok w, heap, nxt)
  | .updateMut f k, w, heap, nxt =>
    k.run w (fun a => if a = w then f (heap w) else heap a) nxt
  | .setFresh v k, _, heap, nxt =>
    k.run nxt (fun a => if a = nxt then v else heap a) (nxt + 1)
  | .failTx e, _, heap, nxt => (.error e, heap, nxt)

/-- Modelled from the spec: on success the pending address is committed; on
a typed failure the log is discarded, so the committed address is rolled
back - but mutations already applied to heap objects persist, because the
log never recorded them (spec section 5 requires that no external code hold
a raw mutable alias precisely because the primitives cannot undo such
writes). -/
def MutTx.commitTx (t : MutTx) (st : MutSt) : Except StmErr Unit × MutSt :=
  match t.run st.addr st.heap st.nextAddr with
  | (.ok w, heap1, nxt1) => (.ok (), { heap := heap1, nextAddr := nxt1, addr := w })
  | (.error e, heap1, nxt1) => (.error e, { heap := heap1, nextAddr := nxt1, addr := st.addr })

/-- `TRef.get` committed and snapshotted: the value of the object the TRef
currently points at. -/
def MutSt.readRef (st : MutSt) : Nat := st.heap st.addr

/-- From 2-stm.ts lines 217-224: `TRef.update` with the in-place
month-increment, then `STM.zipRight(STM.fail(new Error("Boom!")))`. -/
def mutabilityTx : MutTx := .updateMut addMonth (.failTx StmErr.boom)

/-- From 2-stm.ts line 215: a TRef made over a single freshly allocated
`Date` whose month count is `m0`. -/
def initialMutSt (m0 : Nat) : MutSt :=
  { heap := fun a => if a = 0 then m0 else 0, nextAddr := 1, addr := 0 }

/-- From 2-stm.ts lines 226-233: read the TRef (`before`), commit the
failing transaction, read again (`after`).  Returns (before, commit
outcome, after). -/
def mutabilityRun (m0 : Nat) : Nat × Except StmErr Unit × Nat :=
  let st := initialMutSt m0
  let before := st.readRef
  let p := mutabilityTx.commitTx st
  (before, p.1, p.2.readRef)

/-! ## Fiber scheduler (spec sections 4.1 and 5,
`src/src/part4-whatsnext/snippets/1-concurrency-and-fibers.ts`) -/

/-- The fiber programs of the snippets, deeply embedded: `Console.log` of an
observable message, `Effect.fork` of a child program, `Effect.yieldNow`, and
completion.  The suspension a `Schedule.spaced` sleep causes between
repetitions is modelled by `yieldNow`: the claims settled here depend only
on where fibers suspend, never on timer durations. -/
inductive FProg where
  | done
  | out (n : Nat) (k : FProg)
  | fork (child : FProg) (k : FProg)
  | yieldNow (k : FProg)

/-- A live fiber: its id, the ids of all its ancestors (direct parent
first), and its remaining program. -/
structure FiberT where
  fid : Nat
  anc : List Nat
  prog : FProg

/-- Modelled from the spec: the cooperative scheduler.  The run queue is
FIFO; the fiber at the front keeps control until it suspends or completes
(spec section 5: scheduling only switches at well-defined boundaries).
`fork` enqueues the child at the back of the run queue and the forker
continues - forked work is "enqueued", not "invoked" (spec section 5).
`yieldNow` sends the running fiber to the back of the queue.  When a fiber
completes, every fiber having it among its ancestors is interrupted, i.e.
removed from the run queue (spec section 3: a fiber becoming Done triggers
cascading interruption into its children; no child outlives its parent's
scope closing).  `fuel` bounds the number of steps observed; the returned
list is the observable output so far, oldest first. -/
def sched : Nat → List FiberT → Nat → List Nat → List Nat
  | 0, _, _, acc => acc.reverse
  | _ + 1, [], _, acc => acc.reverse
  | fuel + 1, ⟨fid, _, .done⟩ :: rest, nid, acc =>
    sched fuel (rest.filter fun g => !(g.anc.contains fid)) nid acc
  | fuel + 1, ⟨fid, anc, .out n k⟩ :: rest, nid, acc =>
    sched fuel (⟨fid, anc, k⟩ :: rest) nid (n :: acc)
  | fuel + 1, ⟨fid, anc, .fork c k⟩ :: rest, nid, acc =>
    sched fuel (⟨fid, anc, k⟩ :: (rest ++ [⟨nid, fid :: anc, c⟩])) (nid + 1) acc
  | fuel + 1, ⟨fid, anc, .yieldNow k⟩ :: rest, nid, acc =>
    sched fuel (rest ++ [⟨fid, anc, k⟩]) nid acc

/-- Running a program as the main fiber (id 0, no ancestors), observing at
most `fuel` scheduler steps. -/
def runMainF (p : FProg) (fuel : Nat) : List Nat :=
  sched fuel [⟨0, [], p⟩] 1 []

/-- A straight-line program: log each message in order, then complete -
it never suspends or yields. -/
def outsP : List Nat → FProg :=
  fun ms => ms.foldr .out .done

/-- From 1-concurrency-and-fibers.ts lines 416-419 (`fiber9`): fork
`Console.log("fork!")` (message 0), then `Console.log("main!")` (message 1)
with no yield in between. -/
def fiber9Model : FProg := .fork (.out 0 .done) (.out 1 .done)

/-- From 1-concurrency-and-fibers.ts lines 441-445 (`fiber10`): the same
program with an explicit `Effect.yieldNow()` between the fork and the
main log. -/
def fiber10Model : FProg := .fork (.out 0 .done) (.yieldNow (.out 1 .done))

/-- From 1-concurrency-and-fibers.ts lines 219-228 (`fiber5`): the forked
fiber logs `i` (message 0) repeatedly with `Schedule.spaced(250)`; the
suspension between repetitions is a yield.  The repetition is unfolded to
any finite depth `n`. -/
def logLoop : Nat → FProg
  | 0 => .done
  | n + 1 => .out 0 (.yieldNow (logLoop n))

/-- `fiber5` itself: fork the spaced logger, then complete immediately (the
only remaining step, `i = 100`, is an unobservable synchronous assignment
with no suspension point). -/
def fiber5Model (n : Nat) : FProg := .fork (logLoop n) .done

/-- A nesting scenario for transitivity: the main fiber forks a child that
itself forks a grandchild (which would log message 7), yields once and
completes; the main fiber yields once - enough for the child to fork the
grandchild - and then completes, so the whole tree below it is
interrupted. -/
def deepNestModel : FProg :=
  .fork (.fork (.out 7 (.yieldNow .done)) (.yieldNow .done)) (.yieldNow .done)

/-! ## Queue (spec section 4.5,
1-concurrency-and-fibers.ts lines 386-401, `fiber8`) -/

/-- An interaction with the queue: an `offer` of a value, or a `take` by
the fiber `tid`. -/
inductive QEvent where
  | offer (v : Nat)
  | take (tid : Nat)

/-- The queue's state: the FIFO buffer of pending values, the FIFO list of
fibers suspended in `take`, and the deliveries made so far, as (taker,
value) pairs in delivery order. -/
structure QState where
  buf : List Nat
  takers : List Nat
  deliv : List (Nat × Nat)

/-- Modelled from the spec: `offer` adds to the buffer unless a taker is
waiting, in which case the earliest waiter receives the value; `take` on a
nonempty buffer receives the oldest value, and on an empty buffer suspends
the taking fiber until an offer arrives; waiting takers and incoming offers
are matched FIFO (spec section 4.5). -/
def qstep (s : QState) : QEvent → QState
  | .offer v =>
    match s.takers with
    | t :: ts => { s with takers := ts, deliv := s.deliv ++ [(t, v)] }
    | [] => { s with buf := s.buf ++ [v] }
  | .take tid =>
    match s.buf with
    | v :: vs => { s with buf := vs, deliv := s.deliv ++ [(tid, v)] }
    | [] => { s with takers := s.takers ++ [tid] }

/-- Running a sequence of queue interactions against a freshly made
(unbounded) queue, as `Queue.unbounded` does in `fiber8`. -/
def qrun (evs : List QEvent) : QState :=
  evs.foldl qstep { buf := [], takers := [], deliv := [] }

/-- The values offered, in offer order. -/
def offersOf : List QEvent → List Nat
  | [] => []
  | .offer v :: rest => v :: offersOf rest
  | .take _ :: rest => offersOf rest

/-- The taking fibers, in take-arrival order. -/
def takerIdsOf : List QEvent → List Nat
  | [] => []
  | .offer _ :: rest => takerIdsOf rest
  | .take t :: rest => t :: takerIdsOf rest

/-- From 1-concurrency-and-fibers.ts lines 386-401 (`fiber8`): the forked
fiber (id 1) takes from the queue, the main fiber offers 42, the forked
fiber takes again, the main fiber offers 43 after its sleep.  (Each take
happens while the queue is empty, so the taker suspends first.) -/
def fiber8Events : List QEvent :=
  [.take 1, .offer 42, .take 1, .offer 43]

/-! ## Deferred (spec section 4.5,
1-concurrency-and-fibers.ts lines 364-375, `fiber7`) -/

/-- An interaction with the deferred: `Deferred.succeed`, `Deferred.fail`,
or an `await` by fiber `fid`. -/
inductive DEvent where
  | succeedD (v : Nat)
  | failD (e : Nat)
  | awaitD (fid : Nat)

/-- The deferred's state: the single-assignment cell (empty or done with a
success or failure), the FIFO list of fibers suspended in `await`, the
notifications delivered so far as (fiber, result) pairs in delivery order,
and the boolean results returned by the `succeed`/`fail` calls so far. -/
structure DState where
  cell : Option (Except Nat Nat)
  waiters : List Nat
  notified : List (Nat × Except Nat Nat)
  acks : List Bool

/-- Modelled from the spec: the first `succeed`/`fail` transitions the cell
from Empty to Done, wakes every fiber suspended in `await` with the stored
result, and returns `true`; every subsequent `succeed`/`fail` is a no-op
returning `false`; an `await` after completion receives the stored result
immediately, one before completion suspends the fiber (spec section 4.5). -/
def dstep (s : DState) : DEvent → DState
  | .succeedD v =>
    match s.cell with
    | none =>
      { cell := some (.ok v), waiters := [],
        notified := s.notified ++ s.waiters.map (fun f => (f, .ok v)),
        acks := s.acks ++ [true] }
    | some _ => { s with acks := s.acks ++ [false] }
  | .failD e =>
    match s.cell with
    | none =>
      { cell := some (.error e), waiters := [],
        notified := s.notified ++ s.waiters.map (fun f => (f, .error e)),
        acks := s.acks ++ [true] }
    | some _ => { s with acks := s.acks ++ [false] }
  | .awaitD f =>
    match s.cell with
    | none => { s with waiters := s.waiters ++ [f] }
    | some r => { s with notified := s.notified ++ [(f, r)] }

/-- Running a sequence of interactions against a freshly made deferred. -/
def drun (evs : List DEvent) : DState :=
  evs.foldl dstep { cell := none, waiters := [], notified := [], acks := [] }

/-- The result stored by the first completion event, if any. -/
def firstComp : List DEvent → Option (Except Nat Nat)
  | [] => none
  | .succeedD v :: _ => some (.ok v)
  | .failD e :: _ => some (.error e)
  | .awaitD _ :: rest => firstComp rest

/-- The boolean each `succeed`/`fail` call returns, in call order, given
whether a completion already happened: `true` exactly for the first
completion. -/
def ackSpecGo : Bool → List DEvent → List Bool
  | _, [] => []
  | b, .succeedD _ :: rest => (!b) :: ackSpecGo true rest
  | b, .failD _ :: rest => (!b) :: ackSpecGo true rest
  | b, .awaitD _ :: rest => ackSpecGo b rest

/-- The awaiting fibers, in arrival order. -/
def awaitIds : List DEvent → List Nat
  | [] => []
  | .succeedD _ :: rest => awaitIds rest
  | .failD _ :: rest => awaitIds rest
  | .awaitD f :: rest => f :: awaitIds rest

/-- What the deliveries must be: if some completion happened, every
awaiting fiber - whether it awaited before or after the transition - is
notified with the single stored result, in arrival order; with no
completion, nobody is notified. -/
def notifiedSpec (evs : List DEvent) : List (Nat × Except Nat Nat) :=
  match firstComp evs with
  | none => []
  | some r => (awaitIds evs).map (fun f => (f, r))

/-- The fibers left suspended: everyone who awaited, when no completion
ever happens; nobody, otherwise. -/
def waitersSpec (evs : List DEvent) : List Nat :=
  match firstComp evs with
  | none => awaitIds evs
  | some _ => []

/-- From 1-concurrency-and-fibers.ts lines 364-375 (`fiber7`): the main
fiber (id 0) awaits the deferred; the forked fiber succeeds it with 42. -/
def fiber7Events : List DEvent :=
  [.awaitD 0, .succeedD 42]

/-! ## Helper lemmas -/

theorem runUpdates_all_inc (σ : List (Nat → Nat)) :
    ∀ V : Nat, (∀ f ∈ σ, f = incrementStep) → runUpdates σ V = V + σ.length := by
  induction σ with
  | nil => intro V _; simp [runUpdates]
  | cons f t ih =>
    intro V h
    have hf : f = incrementStep := h f (List.mem_cons_self f t)
    have ht : ∀ g ∈ t, g = incrementStep := fun g hg => h g (List.mem_cons_of_mem f hg)
    have : runUpdates (f :: t) V = runUpdates t (f V) := rfl
    rw [this, ih (f V) ht, hf]
    simp [incrementStep]
    omega

theorem drainLock_final_sum (ws : List Nat) :
    ∀ v : Nat, (drainLock v ws).2.2 = v + ws.sum := by
  induction ws with
  | nil => intro v; simp [drainLock]
  | cons a rest ih =>
    intro v
    have : (drainLock v (a :: rest)).2.2 = (drainLock (v + a) rest).2.2 := rfl
    rw [this, ih (v + a)]
    simp [List.sum_cons]
    omega

theorem sched_nil_queue (fuel nid : Nat) (acc : List Nat) :
    sched fuel [] nid acc = acc.reverse := by
  cases fuel <;> rfl

theorem sched_outs (ms : List Nat) :
    ∀ (extra : Nat) (acc : List Nat) (rest : List FiberT) (nid fid : Nat) (anc : List Nat),
      sched (extra + (ms.length + 1)) (⟨fid, anc, outsP ms⟩ :: rest) nid acc
        = sched extra (rest.filter fun g => !(g.anc.contains fid)) nid (ms.reverse ++ acc) := by
  induction ms with
  | nil =>
    intro extra acc rest nid fid anc
    show sched (extra + 1) (⟨fid, anc, FProg.done⟩ :: rest) nid acc = _
    rw [sched]
    simp
  | cons m t ih =>
    intro extra acc rest nid fid anc
    show sched ((extra + (t.length + 1)) + 1) (⟨fid, anc, FProg.out m (outsP t)⟩ :: rest) nid acc = _
    rw [sched, ih extra (m :: acc) rest nid fid anc]
    simp

theorem qfold (evs : List QEvent) :
    ∀ s : QState, (s.buf = [] ∨ s.takers = []) →
      ((evs.foldl qstep s).deliv.map Prod.snd ++ (evs.foldl qstep s).buf
          = (s.deliv.map Prod.snd ++ s.buf) ++ offersOf evs) ∧
      ((evs.foldl qstep s).deliv.map Prod.fst ++ (evs.foldl qstep s).takers
          = (s.deliv.map Prod.fst ++ s.takers) ++ takerIdsOf evs) ∧
      ((evs.foldl qstep s).buf = [] ∨ (evs.foldl qstep s).takers = []) := by
  induction evs with
  | nil => intro s hs; simp [offersOf, takerIdsOf]; exact hs
  | cons ev rest ih =>
    intro s hs
    cases ev with
    | offer v =>
      cases htk : s.takers with
      | cons t ts =>
        have hbuf : s.buf = [] := by
          cases hs with
          | inl h => exact h
          | inr h => rw [htk] at h; exact absurd h (by simp)
        have hstep : qstep s (.offer v)
            = { s with takers := ts, deliv := s.deliv ++ [(t, v)] } := by
          simp [qstep, htk]
        have h3 := ih { s with takers := ts, deliv := s.deliv ++ [(t, v)] }
          (Or.inl hbuf)
        simp only [List.foldl_cons, hstep]
        refine ⟨?_, ?_, h3.2.2⟩
        · rw [h3.1]; simp [offersOf, hbuf]
        · rw [h3.2.1]; simp [takerIdsOf, htk]
      | nil =>
        have hstep : qstep s (.offer v) = { s with buf := s.buf ++ [v] } := by
          simp [qstep, htk]
        have h3 := ih { s with buf := s.buf ++ [v] } (Or.inr htk)
        simp only [List.foldl_cons, hstep]
        refine ⟨?_, ?_, h3.2.2⟩
        · rw [h3.1]; simp [offersOf]
        · rw [h3.2.1]; simp [takerIdsOf, htk]
    | take tid =>
      cases hbf : s.buf with
      | cons v vs =>
        have htk : s.takers = [] := by
          cases hs with
          | inl h => rw [hbf] at h; exact absurd h (by simp)
          | inr h => exact h
        have hstep : qstep s (.take tid)
            = { s with buf := vs, deliv := s.deliv ++ [(tid, v)] } := by
          simp [qstep, hbf]
        have h3 := ih { s with buf := vs, deliv := s.deliv ++ [(tid, v)] }
          (Or.inr htk)
        simp only [List.foldl_cons, hstep]
        refine ⟨?_, ?_, h3.2.2⟩
        · rw [h3.1]; simp [offersOf, hbf]
        · rw [h3.2.1]; simp [takerIdsOf, htk]
      | nil =>
        have hstep : qstep s (.take tid) = { s with takers := s.takers ++ [tid] } := by
          simp [qstep, hbf]
        have h3 := ih { s with takers := s.takers ++ [tid] } (Or.inl hbf)
        simp only [List.foldl_cons, hstep]
        refine ⟨?_, ?_, h3.2.2⟩
        · rw [h3.1]; simp [offersOf, hbf]
        · rw [h3.2.1]; simp [takerIdsOf]

theorem dfold_some (evs : List DEvent) :
    ∀ (r : Except Nat Nat) (nt : List (Nat × Except Nat Nat)) (ak : List Bool),
      evs.foldl dstep { cell := some r, waiters := [], notified := nt, acks := ak }
        = { cell := some r, waiters := [],
            notified := nt ++ (awaitIds evs).map (fun f => (f, r)),
            acks := ak ++ ackSpecGo true evs } := by
  induction evs with
  | nil => intro r nt ak; simp [awaitIds, ackSpecGo]
  | cons ev rest ih =>
    intro r nt ak
    cases ev with
    | succeedD v =>
      have hstep : dstep { cell := some r, waiters := [], notified := nt, acks := ak }
          (.succeedD v)
          = { cell := some r, waiters := [], notified := nt, acks := ak ++ [false] } := by
        simp [dstep]
      simp only [List.foldl_cons, hstep, ih]
      simp [awaitIds, ackSpecGo]
    | failD e =>
      have hstep : dstep { cell := some r, waiters := [], notified := nt, acks := ak }
          (.failD e)
          = { cell := some r, waiters := [], notified := nt, acks := ak ++ [false] } := by
        simp [dstep]
      simp only [List.foldl_cons, hstep, ih]
      simp [awaitIds, ackSpecGo]
    | awaitD f =>
      have hstep : dstep { cell := some r, waiters := [], notified := nt, acks := ak }
          (.awaitD f)
          = { cell := some r, waiters := [], notified := nt ++ [(f, r)], acks := ak } := by
        simp [dstep]
      simp only [List.foldl_cons, hstep, ih]
      simp [awaitIds, ackSpecGo]

theorem dfold_none (evs : List DEvent) :
    ∀ (w : List Nat) (nt : List (Nat × Except Nat Nat)) (ak : List Bool),
      evs.foldl dstep { cell := none, waiters := w, notified := nt, acks := ak }
        = { cell := firstComp evs,
            waiters := match firstComp evs with
              | none => w ++ awaitIds evs
              | some _ => [],
            notified := nt ++ (match firstComp evs with
              | none => []
              | some r => (w ++ awaitIds evs).map (fun f => (f, r))),
            acks := ak ++ ackSpecGo false evs } := by
  induction evs with
  | nil => intro w nt ak; simp [firstComp, awaitIds, ackSpecGo]
  | cons ev rest ih =>
    intro w nt ak
    cases ev with
    | succeedD v =>
      have hstep : dstep { cell := none, waiters := w, notified := nt, acks := ak }
          (.succeedD v)
          = { cell := some (.ok v), waiters := [],
              notified := nt ++ w.map (fun f => (f, Except.ok v)),
              acks := ak ++ [true] } := by
        simp [dstep]
      simp only [List.foldl_cons, hstep, dfold_some]
      simp [firstComp, awaitIds, ackSpecGo]
    | failD e =>
      have hstep : dstep { cell := none, waiters := w, notified := nt, acks := ak }
          (.failD e)
          = { cell := some (.error e), waiters := [],
              notified := nt ++ w.map (fun f => (f, Except.error e)),
              acks := ak ++ [true] } := by
        simp [dstep]
      simp only [List.foldl_cons, hstep, dfold_some]
      simp [firstComp, awaitIds, ackSpecGo]
    | awaitD f =>
      have hstep : dstep { cell := none, waiters := w, notified := nt, acks := ak }
          (.awaitD f)
          = { cell := none, waiters := w ++ [f], notified := nt, acks := ak } := by
        simp [dstep]
      simp only [List.foldl_cons, hstep, ih]
      cases hc : firstComp rest <;> simp [firstComp, awaitIds, ackSpecGo, hc]

/-! ## Claim theorems -/

/-- C1: for a SynchronizedRef with initial value 1 and three concurrent
callers that each read the value, run `updateEffect` adding 1, 2, 3
respectively (each update containing a shared sleep), and read again, the
effectful updates complete in FIFO arrival order: the before-reads are all
1, the after-reads are 2, 4, 7 paired with callers 1, 2, 3, the visible
committed values over time are exactly 1, 2, 4, 7, and the final value is 7
(matching the output documented at `src/unnamed/part_000` lines 130-140).
Moreover, for any initial value and any FIFO arrival queue, draining the
lock queue completes every update, applying each to the immediately prior
committed value. -/
theorem c1_synchronizedRef_fifo_updates :
    threeRun = ([1, 1, 1], [(1, 2), (2, 4), (3, 7)], [1, 2, 4, 7], 7) ∧
    ∀ (v : Nat) (ws : List Nat), (drainLock v ws).2.2 = v + ws.sum :=
  ⟨rfl, fun v ws => drainLock_final_sum ws v⟩

/-- C2 counterexample: the claim states that for a FiberRef created without
a custom join function, after the parent joins a child that set the ref,
the parent's slot still holds the parent's pre-fork value.  This is false
at a concrete input: with parent value `none` (the snippet's `null`) and a
child that sets the ref to "fiber1", the parent's slot after join is
`some "fiber1"`, not `none` - exactly what the source's commentary states
("the main fiber does NOT have its initial value as the final value"). -/
theorem c2_counterexample_default_join_keeps_child :
    ¬ (joinSlot (defaultPolicy (Option String)) none
        (setSlot (forkSlot (defaultPolicy (Option String)) none) (some "fiber1")) = none) := by
  simp [joinSlot, setSlot, forkSlot, defaultPolicy]

/-- C2 amended: for a FiberRef created without a custom join function, after
the parent forks a child, the child sets the ref, and the parent joins the
child, the parent's slot holds the child's final value (the default join
policy replaces the parent's value with the child's); in the snippet the
main fiber ends with "fiber2", the value of the last joined child, not its
pre-fork `null`. -/
theorem c2_default_join_takes_child_value :
    (∀ p v : Option String,
      joinSlot (defaultPolicy (Option String)) p
        (setSlot (forkSlot (defaultPolicy (Option String)) p) v) = v) ∧
    runFiberRefSnippet = some "fiber2" ∧ runFiberRefSnippet ≠ none := by
  refine ⟨fun p v => rfl, rfl, by simp [runFiberRefSnippet, joinSlot, setSlot, defaultPolicy]⟩

/-- C3: an STM transaction that explicitly fails with a typed error is not
retried: `commit` returns the failure and applies none of the provisional
writes - the committed store after the failed commit is exactly the store
before it, so every TRef the transaction touched reads the same value as
before.  Instantiated by the witness at `badTransaction`, an `STM.all`
composition, whose members therefore commit together or not at all. -/
theorem c3_stm_typed_failure_discards_writes {α : Type}
    (m : STM StmErr α) (s : TStore) (e : StmErr)
    (h : m.run s = .error e) :
    m.commit s = (.error e, s) := by
  unfold STM.commit
  rw [h]

/-- C3 witness: `badTransaction` (the `STM.all` of three transfers, 2-stm.ts
lines 127-131) fails with `InsufficientFundsError` on the store left by the
two concurrent transfers, and its commit returns that failure with the
store unchanged. -/
theorem c3_witness_badTransaction :
    badTransaction.run storeAfterTransfers = .error StmErr.insufficientFunds ∧
    badTransaction.commit storeAfterTransfers
      = (.error StmErr.insufficientFunds, storeAfterTransfers) :=
  ⟨rfl, c3_stm_typed_failure_discards_writes badTransaction storeAfterTransfers
      StmErr.insufficientFunds rfl⟩

/-- C4: for the two accounts with initial balances 1000 and 500, the
concurrently committed transactions `transfer(account1, account2, 200)` and
`transfer(account2, account1, 300)` - which serialize into one of the two
orders (STM transactions are atomic and serializable, so no interleaving
exposes any intermediate state of one transfer to the other) - leave the
sum of the two balances equal to 1500 in both serial orders. -/
theorem c4_concurrent_transfers_preserve_sum (σ : List (STM StmErr Unit))
    (h : σ = [transferA, transferB] ∨ σ = [transferB, transferA]) :
    (commitSeq σ mainStore) 1 + (commitSeq σ mainStore) 2 = 1500 := by
  rcases h with rfl | rfl <;> decide

/-- C4 witness: the first serial order, concretely. -/
theorem c4_witness_first_order :
    (commitSeq [transferA, transferB] mainStore) 1
      + (commitSeq [transferA, transferB] mainStore) 2 = 1500 :=
  c4_concurrent_transfers_preserve_sum [transferA, transferB] (Or.inl rfl)

/-- C5: a freshly forked fiber never executes before the forking fiber
reaches its next suspension point.  First conjunct: if the forker completes
without suspending or yielding after the fork (a straight-line tail of
logs), the forked fiber - whatever its program `c` - never runs: the output
is exactly the forker's own logs, for any surplus of scheduler fuel.
Second conjunct: with an explicit yield after the fork, the forked fiber's
already-enqueued work runs to its completion before the forker continues.
Third and fourth conjuncts: the snippet programs `fiber9` (output only
"main!") and `fiber10` (output "fork!" then "main!"). -/
theorem c5_fork_enqueues_does_not_invoke (c : FProg) (cs ms : List Nat) (extra : Nat) :
    runMainF (.fork c (outsP ms)) (extra + (ms.length + 2)) = ms ∧
    runMainF (.fork (outsP cs) (.yieldNow (outsP ms)))
        ((extra + (ms.length + 1)) + (cs.length + 1) + 2) = cs ++ ms ∧
    runMainF fiber9Model 5 = [1] ∧
    runMainF fiber10Model 6 = [0, 1] := by
  refine ⟨?_, ?_, rfl, rfl⟩
  · show sched ((extra + (ms.length + 1)) + 1) [⟨0, [], .fork c (outsP ms)⟩] 1 [] = ms
    rw [sched]
    simp only [List.nil_append]
    rw [sched_outs ms extra [] [⟨1, [0], c⟩] 2 0 []]
    simp [sched_nil_queue, List.contains]
  · show sched ((((extra + (ms.length + 1)) + (cs.length + 1)) + 1) + 1)
      [⟨0, [], .fork (outsP cs) (.yieldNow (outsP ms))⟩] 1 [] = cs ++ ms
    rw [sched]
    simp only [List.nil_append]
    rw [sched]
    simp only [List.nil_append, List.singleton_append]
    rw [sched_outs cs (extra + (ms.length + 1)) [] [⟨0, [], outsP ms⟩] 2 1 [0]]
    simp only [List.filter, List.contains, List.elem_nil, Bool.not_false]
    rw [sched_outs ms extra (cs.reverse ++ []) [] 2 0 []]
    simp [sched_nil_queue, List.reverse_append]

/-- C6: when a fiber becomes Done, every still-running fiber forked into
its scope is interrupted, transitively through descendants.  First
conjunct: `fiber5` - a parent that completes immediately after forking a
repeating logger (unfolded to any depth `n`) - produces no output at all,
at every scheduler fuel: the forked fiber is interrupted before any
observable effect.  Second conjunct: a fiber tree two levels deep is
interrupted transitively when the root completes - neither the child nor
the grandchild ever logs. -/
theorem c6_done_cascades_interruption :
    (∀ (n fuel : Nat), runMainF (fiber5Model n) fuel = []) ∧
    (∀ fuel : Nat, runMainF deepNestModel fuel = []) := by
  constructor
  · intro n fuel
    match fuel with
    | 0 => rfl
    | 1 => rfl
    | (k + 2) =>
      show sched ((k + 1) + 1) [⟨0, [], .fork (logLoop n) .done⟩] 1 [] = []
      rw [sched]
      simp only [List.nil_append]
      rw [sched]
      simp only [List.filter, List.contains]
      exact sched_nil_queue k 2 []
  · intro fuel
    match fuel with
    | 0 => rfl
    | 1 => rfl
    | 2 => rfl
    | 3 => rfl
    | 4 => rfl
    | (k + 5) =>
      show sched (((((k + 1) + 1) + 1) + 1) + 1) [⟨0, [], deepNestModel⟩] 1 [] = []
      rw [deepNestModel, sched]
      simp only [List.nil_append]
      rw [sched]
      simp only [List.nil_append, List.singleton_append]
      rw [sched]
      simp only [List.cons_append, List.nil_append]
      rw [sched]
      simp only [List.cons_append, List.singleton_append, List.nil_append]
      rw [sched]
      simp only [List.filter, List.contains]
      exact sched_nil_queue k 3 []

/-- C7: for all N concurrent `Ref.update(ref, n => n+1)` calls started from
initial value V, the final value of the Ref equals V + N regardless of
interleaving: each update is one atomic read-modify-write applied to the
immediately prior value, and an interleaving is any ordering (any
permutation) of the N atomic increment steps, so no increment is lost. -/
theorem c7_concurrent_increments_not_lost (V N : Nat) (σ : List (Nat → Nat))
    (h : σ.Perm (List.replicate N incrementStep)) :
    runUpdates σ V = V + N := by
  have hlen : σ.length = N := by simpa using h.length_eq
  have hmem : ∀ f ∈ σ, f = incrementStep :=
    fun f hf => List.eq_of_mem_replicate (h.subset hf)
  rw [runUpdates_all_inc σ V hmem, hlen]

/-- C7 witness: three concurrent increments from 1 end at 4. -/
theorem c7_witness_three_increments :
    runUpdates (List.replicate 3 incrementStep) 1 = 1 + 3 :=
  c7_concurrent_increments_not_lost 1 3 (List.replicate 3 incrementStep) (List.Perm.refl _)

/-- C8: for every sequence of queue interactions, a take on an empty queue
suspends the taker until an offer arrives, and waiting takers are matched
with incoming offers in FIFO order: the values delivered are exactly the
earliest offers in offer order (the rest sit in the buffer), the fibers
they are delivered to are exactly the earliest takers in arrival order (the
rest stay suspended), and the buffer and the taker list are never both
nonempty.  Concretely, `fiber8`'s repeated taker receives exactly the first
two offered values, 42 then 43, in offer order. -/
theorem c8_queue_fifo_matching :
    (∀ evs : List QEvent,
      (qrun evs).deliv.map Prod.snd ++ (qrun evs).buf = offersOf evs ∧
      (qrun evs).deliv.map Prod.fst ++ (qrun evs).takers = takerIdsOf evs ∧
      ((qrun evs).buf = [] ∨ (qrun evs).takers = [])) ∧
    (qrun fiber8Events).deliv = [(1, 42), (1, 43)] := by
  constructor
  · intro evs
    have h := qfold evs { buf := [], takers := [], deliv := [] } (Or.inl rfl)
    simpa [qrun] using h
  · rfl

/-- C9: for every sequence of deferred interactions, the Empty-to-Done
transition happens exactly once: the cell ends holding the first
`succeed`/`fail` result, that first call returns `true` and every
subsequent completion attempt is a no-op returning `false`; every awaiting
fiber - suspended before the transition or arriving after it - is notified
with that single stored result, in arrival order, and nobody stays
suspended once the cell is Done (an await after completion is answered
immediately).  Concretely, `fiber7`'s awaiting main fiber is woken with the
forked fiber's value 42. -/
theorem c9_deferred_single_assignment :
    (∀ evs : List DEvent,
      (drun evs).cell = firstComp evs ∧
      (drun evs).acks = ackSpecGo false evs ∧
      (drun evs).notified = notifiedSpec evs ∧
      (drun evs).waiters = waitersSpec evs) ∧
    (drun fiber7Events).notified = [(0, .ok 42)] := by
  constructor
  · intro evs
    have h := dfold_none evs [] [] []
    rw [drun, h]
    cases hc : firstComp evs <;>
      simp [notifiedSpec, waitersSpec, hc]
  · rfl

/-- C10: if a TRef holds a mutable object and a transaction's update
function mutates it in place, then after the transaction fails and its
commit returns the failure, reading the TRef observes the mutated object:
for every starting month count, the before-read sees the original value,
the commit of `mutabilityBad`'s transaction returns the Boom failure, and
the after-read sees the month already incremented - rollback on failure
does not restore in-place mutations, so the reads around the failed commit
differ. -/
theorem c10_inplace_mutation_survives_failed_commit (m0 : Nat) :
    mutabilityRun m0 = (m0, .error StmErr.boom, addMonth m0) ∧
    (mutabilityRun m0).2.2 ≠ (mutabilityRun m0).1 := by
  refine ⟨rfl, ?_⟩
  show addMonth m0 ≠ m0
  simp [addMonth]

end EffectWorkshop
